import Mathlib

/-! Verification of the distributed canary deployment engine: a shallow
    embedding of `src/distributed_canary` (node role engine, vote collection,
    decision application, durable state log, routing-state codec) together
    with theorems about the protocol invariants it maintains. -/

/-- Status of a replicated state record (`DeploymentStatus`, the status enum
    of the `model_id` schema variant used throughout `node.py`). -/
inductive DeploymentStatus where
  | PREPARED
  | COMMITTED
  | ABORTED
deriving DecidableEq, Repr

/-- Vote sent by a participant (`messages.Vote`). -/
inductive Vote where
  | COMMIT
  | ABORT
deriving DecidableEq, Repr

/-- Coordinator decision kind (`messages.DecisionKind`). -/
inductive DecisionKind where
  | COMMIT
  | ABORT
deriving DecidableEq, Repr

/-- Modelled from the spec: the single-`model_id` variant of the replicated
    `StateObject` (spec section 6); `node.py` imports this dataclass as
    `DeploymentState` but its class definition is not under `src/`, only its
    uses in `node.py` are. Fields: `version:int`, `model_id:str`,
    `status`, `txid:str`, `timestamp:str`. -/
structure DeploymentState where
  version : Nat
  model_id : String
  status : DeploymentStatus
  txid : String
  timestamp : String
deriving DecidableEq, Repr

/-- The in-memory per-node state relevant to the protocol, as set up by
    `Node.__init__`: current state, last committed state, the durable log
    (modelled as the list of records appended so far) and the health metric
    (`p95`, `error_rate`, modelled as rationals). -/
structure NodeState where
  node_id : String
  state : DeploymentState
  last_committed : Option DeploymentState
  log : List DeploymentState
  p95 : ℚ
  error_rate : ℚ
deriving DecidableEq, Repr

/-- `Node.__init__` (node.py:33-47): restore the last persisted record as the
    current state, or bootstrap `version=1, status=COMMITTED, txid="initial"`
    and append it; `last_committed` is the current state when its status is
    `COMMITTED`, else `None`. The health metric boots at p95=120, er=0.01. -/
def nodeInit (node_id : String) (log : List DeploymentState)
    (initial_model now : String) : NodeState :=
  match log.getLast? with
  | some persisted =>
      { node_id := node_id
        state := persisted
        last_committed :=
          if persisted.status = DeploymentStatus.COMMITTED then some persisted else none
        log := log
        p95 := 120
        error_rate := 1/100 }
  | none =>
      let s : DeploymentState :=
        { version := 1, model_id := initial_model,
          status := DeploymentStatus.COMMITTED, txid := "initial", timestamp := now }
      { node_id := node_id
        state := s
        last_committed := some s
        log := log ++ [s]
        p95 := 120
        error_rate := 1/100 }

/-- `handle_state` (GET /state, node.py:309-311): the node serves
    `self.state`. -/
def servedState (n : NodeState) : DeploymentState := n.state

/-- `Node._passes_health_gate` (node.py:130-132):
    `p95 <= 200 and error_rate <= 0.05`. -/
def passesHealthGate (n : NodeState) : Bool :=
  decide (n.p95 ≤ 200) && decide (n.error_rate ≤ 5/100)

/-- `Node._apply_decision` (node.py:134-161). On COMMIT: mark the state
    COMMITTED, install it as both `state` and `last_committed`, append it.
    On ABORT: append an ABORTED record carrying the candidate's version and
    txid with the previously committed `model_id` (fallback `"v1"`), and
    restore `state := last_committed` when one exists. -/
def applyDecision (n : NodeState) (s : DeploymentState) (d : DecisionKind)
    (now : String) : NodeState :=
  match d with
  | DecisionKind.COMMIT =>
      let s' := { s with status := DeploymentStatus.COMMITTED }
      { n with state := s', last_committed := some s', log := n.log ++ [s'] }
  | DecisionKind.ABORT =>
      let abort_state : DeploymentState :=
        { version := s.version
          model_id := match n.last_committed with
                      | some lc => lc.model_id
                      | none => "v1"
          status := DeploymentStatus.ABORTED
          txid := s.txid
          timestamp := now }
      let n' := { n with log := n.log ++ [abort_state] }
      match n.last_committed with
      | some lc => { n' with state := lc }
      | none => n'

/-- An externally visible effect of the prepare handler, in program order:
    a durable log append or a network send of a `PREPARE_RESP`. -/
inductive Effect where
  | append (s : DeploymentState)
  | send (target : String) (txid : String) (vote : Vote) (reason : String)
deriving DecidableEq, Repr

/-- `Node._handle_prepare_request` (node.py:80-105): compute the vote from
    the health gate, mark the candidate `PREPARED` and append it to the log,
    then send the `PREPARE_RESP` (echoing the request's txid) back to the
    message's sender. The effect list records the order of the append and
    the send. -/
def handlePrepareRequest (n : NodeState) (sender txid : String)
    (reqState : DeploymentState) : NodeState × List Effect :=
  let vote := if passesHealthGate n then Vote.COMMIT else Vote.ABORT
  let vote_reason := if passesHealthGate n then "ready to deploy" else "health check failed"
  let candidate := { reqState with status := DeploymentStatus.PREPARED }
  ({ n with log := n.log ++ [candidate] },
   [Effect.append candidate, Effect.send sender txid vote vote_reason])

/-- `Node._collect_votes` (node.py:235-254), applied to the list of votes
    recorded in the tally for the txid at the moment the wait ends (deadline
    expiry or all expected votes arrived): ABORT when fewer than `expected`
    votes were recorded, COMMIT when all recorded votes are COMMIT, else
    ABORT. -/
def collectVotes (votes : List Vote) (expected : Nat) : DecisionKind :=
  if votes.length < expected then DecisionKind.ABORT
  else if votes.all (fun v => decide (v = Vote.COMMIT)) then DecisionKind.COMMIT
  else DecisionKind.ABORT

/-- C2: `Node._collect_votes` decides `COMMIT` iff at least `expected` votes
    were recorded in the tally for the txid by the deadline and every
    recorded vote is COMMIT; in every other case (including zero or partial
    votes at deadline expiry) it decides `ABORT`. -/
theorem collectVotes_commit_iff (votes : List Vote) (expected : Nat) :
    (collectVotes votes expected = DecisionKind.COMMIT ↔
      expected ≤ votes.length ∧ ∀ v ∈ votes, v = Vote.COMMIT)
    ∧ (¬(expected ≤ votes.length ∧ ∀ v ∈ votes, v = Vote.COMMIT) →
      collectVotes votes expected = DecisionKind.ABORT) := by
  have hiff : collectVotes votes expected = DecisionKind.COMMIT ↔
      expected ≤ votes.length ∧ ∀ v ∈ votes, v = Vote.COMMIT := by
    unfold collectVotes
    split
    · next h =>
      constructor
      · intro hc; cases hc
      · rintro ⟨hle, _⟩; omega
    · next h =>
      split
      · next hall =>
        simp only [List.all_eq_true, decide_eq_true_eq] at hall
        constructor
        · intro _; exact ⟨by omega, hall⟩
        · intro _; rfl
      · next hall =>
        simp only [List.all_eq_true, decide_eq_true_eq] at hall
        constructor
        · intro hc; cases hc
        · rintro ⟨_, hv⟩; exact absurd hv hall
  refine ⟨hiff, fun hn => ?_⟩
  rcases h : collectVotes votes expected with _ | _
  · exact absurd (hiff.mp h) hn
  · rfl

/-- Witness for C2 at a concrete partial tally (one ABORT vote of two
    expected). -/
theorem collectVotes_commit_iff_witness :
    (collectVotes [Vote.COMMIT, Vote.ABORT] 2 = DecisionKind.COMMIT ↔
      2 ≤ [Vote.COMMIT, Vote.ABORT].length ∧
        ∀ v ∈ [Vote.COMMIT, Vote.ABORT], v = Vote.COMMIT)
    ∧ (¬(2 ≤ [Vote.COMMIT, Vote.ABORT].length ∧
        ∀ v ∈ [Vote.COMMIT, Vote.ABORT], v = Vote.COMMIT) →
      collectVotes [Vote.COMMIT, Vote.ABORT] 2 = DecisionKind.ABORT) :=
  collectVotes_commit_iff [Vote.COMMIT, Vote.ABORT] 2

/-- C4: delivering the same DECISION for an already-resolved txid a second
    time leaves the in-memory state unchanged (`state` and `last_committed`
    keep their values); the only difference is one duplicate log append. -/
theorem applyDecision_idempotent (n : NodeState) (s : DeploymentState)
    (d : DecisionKind) (t₁ t₂ : String) :
    (applyDecision (applyDecision n s d t₁) s d t₂).state
        = (applyDecision n s d t₁).state
    ∧ (applyDecision (applyDecision n s d t₁) s d t₂).last_committed
        = (applyDecision n s d t₁).last_committed
    ∧ ∃ dup, (applyDecision (applyDecision n s d t₁) s d t₂).log
        = (applyDecision n s d t₁).log ++ [dup] := by
  cases d with
  | COMMIT => exact ⟨rfl, rfl, _, rfl⟩
  | ABORT =>
    rcases h : n.last_committed with _ | lc
    · refine ⟨?_, ?_, ?_⟩ <;> simp [applyDecision, h]
    · refine ⟨?_, ?_, ?_⟩ <;> simp [applyDecision, h]

/-- C5: an ABORT decision, when a last committed state `lc` exists, appends
    an ABORTED record carrying the candidate's version and txid together
    with the previously committed `model_id`, and restores
    `state := last_committed`, leaving the committed state served by the
    node unchanged. -/
theorem applyDecision_abort_restores (n : NodeState) (s lc : DeploymentState)
    (now : String) (h : n.last_committed = some lc) :
    applyDecision n s DecisionKind.ABORT now =
      { n with
        log := n.log ++ [{ version := s.version, model_id := lc.model_id,
                           status := DeploymentStatus.ABORTED, txid := s.txid,
                           timestamp := now }]
        state := lc }
    ∧ (applyDecision n s DecisionKind.ABORT now).last_committed = some lc
    ∧ servedState (applyDecision n s DecisionKind.ABORT now) = lc := by
  refine ⟨?_, ?_, ?_⟩ <;> simp [applyDecision, servedState, h]

/-- Witness for C5: a freshly booted node aborting a version-2 candidate. -/
theorem applyDecision_abort_restores_witness :
    (nodeInit "b" [] "v1" "ts0").last_committed = some
      { version := 1, model_id := "v1", status := DeploymentStatus.COMMITTED,
        txid := "initial", timestamp := "ts0" }
    ∧ (applyDecision (nodeInit "b" [] "v1" "ts0")
        { version := 2, model_id := "v2", status := DeploymentStatus.PREPARED,
          txid := "deploy-a-2-7", timestamp := "ts1" }
        DecisionKind.ABORT "ts2" =
      { nodeInit "b" [] "v1" "ts0" with
        log := (nodeInit "b" [] "v1" "ts0").log ++
          [{ version := 2, model_id := "v1",
             status := DeploymentStatus.ABORTED, txid := "deploy-a-2-7",
             timestamp := "ts2" }]
        state := { version := 1, model_id := "v1",
                   status := DeploymentStatus.COMMITTED, txid := "initial",
                   timestamp := "ts0" } }
      ∧ (applyDecision (nodeInit "b" [] "v1" "ts0")
          { version := 2, model_id := "v2", status := DeploymentStatus.PREPARED,
            txid := "deploy-a-2-7", timestamp := "ts1" }
          DecisionKind.ABORT "ts2").last_committed = some
        { version := 1, model_id := "v1", status := DeploymentStatus.COMMITTED,
          txid := "initial", timestamp := "ts0" }
      ∧ servedState (applyDecision (nodeInit "b" [] "v1" "ts0")
          { version := 2, model_id := "v2", status := DeploymentStatus.PREPARED,
            txid := "deploy-a-2-7", timestamp := "ts1" }
          DecisionKind.ABORT "ts2") =
        { version := 1, model_id := "v1", status := DeploymentStatus.COMMITTED,
          txid := "initial", timestamp := "ts0" }) :=
  ⟨by decide,
   applyDecision_abort_restores (nodeInit "b" [] "v1" "ts0")
     { version := 2, model_id := "v2", status := DeploymentStatus.PREPARED,
       txid := "deploy-a-2-7", timestamp := "ts1" }
     { version := 1, model_id := "v1", status := DeploymentStatus.COMMITTED,
       txid := "initial", timestamp := "ts0" }
     "ts2" (by decide)⟩

/-- C10: an ABORT decision while `last_committed` is `None` appends an
    ABORTED record whose `model_id` is the literal fallback `"v1"` and
    leaves the node's current served state unchanged. -/
theorem applyDecision_abort_no_committed (n : NodeState) (s : DeploymentState)
    (now : String) (h : n.last_committed = none) :
    applyDecision n s DecisionKind.ABORT now =
      { n with log := n.log ++
          [⟨s.version, "v1", DeploymentStatus.ABORTED, s.txid, now⟩] }
    ∧ servedState (applyDecision n s DecisionKind.ABORT now) = servedState n := by
  refine ⟨?_, ?_⟩ <;> simp [applyDecision, servedState, h]

/-- Witness for C10: a node recovered from a log whose last record is
    PREPARED (so `last_committed = none`) aborting that candidate. -/
theorem applyDecision_abort_no_committed_witness :
    (nodeInit "b"
      [⟨1, "v1", DeploymentStatus.COMMITTED, "initial", "t0"⟩,
       ⟨2, "v2", DeploymentStatus.PREPARED, "d-2", "t1"⟩] "v1" "t0").last_committed = none
    ∧ (applyDecision
        (nodeInit "b"
          [⟨1, "v1", DeploymentStatus.COMMITTED, "initial", "t0"⟩,
           ⟨2, "v2", DeploymentStatus.PREPARED, "d-2", "t1"⟩] "v1" "t0")
        ⟨2, "v2", DeploymentStatus.PREPARED, "d-2", "t1"⟩
        DecisionKind.ABORT "t3" =
      { nodeInit "b"
          [⟨1, "v1", DeploymentStatus.COMMITTED, "initial", "t0"⟩,
           ⟨2, "v2", DeploymentStatus.PREPARED, "d-2", "t1"⟩] "v1" "t0" with
        log := (nodeInit "b"
          [⟨1, "v1", DeploymentStatus.COMMITTED, "initial", "t0"⟩,
           ⟨2, "v2", DeploymentStatus.PREPARED, "d-2", "t1"⟩] "v1" "t0").log ++
          [⟨2, "v1", DeploymentStatus.ABORTED, "d-2", "t3"⟩] }
      ∧ servedState (applyDecision
          (nodeInit "b"
            [⟨1, "v1", DeploymentStatus.COMMITTED, "initial", "t0"⟩,
             ⟨2, "v2", DeploymentStatus.PREPARED, "d-2", "t1"⟩] "v1" "t0")
          ⟨2, "v2", DeploymentStatus.PREPARED, "d-2", "t1"⟩
          DecisionKind.ABORT "t3") =
        servedState (nodeInit "b"
          [⟨1, "v1", DeploymentStatus.COMMITTED, "initial", "t0"⟩,
           ⟨2, "v2", DeploymentStatus.PREPARED, "d-2", "t1"⟩] "v1" "t0")) :=
  ⟨by decide,
   applyDecision_abort_no_committed
     (nodeInit "b"
       [⟨1, "v1", DeploymentStatus.COMMITTED, "initial", "t0"⟩,
        ⟨2, "v2", DeploymentStatus.PREPARED, "d-2", "t1"⟩] "v1" "t0")
     ⟨2, "v2", DeploymentStatus.PREPARED, "d-2", "t1"⟩ "t3" (by decide)⟩

/-- C6: in `Node._handle_prepare_request` the PREPARED record is appended to
    the durable log strictly before the PREPARE_RESP carrying the vote is
    sent: the effect trace is exactly an append followed by the send, and
    every append index is smaller than every send index. -/
theorem prepare_append_before_send (n : NodeState) (sender txid : String)
    (reqState : DeploymentState) :
    (∃ vote reason,
      (handlePrepareRequest n sender txid reqState).2 =
        [Effect.append { reqState with status := DeploymentStatus.PREPARED },
         Effect.send sender txid vote reason])
    ∧ ∀ i j a tgt tx v r,
        ((handlePrepareRequest n sender txid reqState).2).get? i
            = some (Effect.append a) →
        ((handlePrepareRequest n sender txid reqState).2).get? j
            = some (Effect.send tgt tx v r) →
        i < j := by
  constructor
  · exact ⟨_, _, rfl⟩
  · intro i j a tgt tx v r hi hj
    match i, j with
    | 0, 0 => simp [handlePrepareRequest] at hj
    | 0, j + 1 => omega
    | 1, _ => simp [handlePrepareRequest] at hi
    | i + 2, _ => simp [handlePrepareRequest] at hi

/-- Witness for C6: the effect trace of a concrete prepare request on a
    freshly booted node. -/
theorem prepare_append_before_send_witness :
    (∃ vote reason,
      (handlePrepareRequest (nodeInit "b" [] "v1" "t0") "a" "d-2"
          ⟨2, "v2", DeploymentStatus.PREPARED, "d-2", "t1"⟩).2 =
        [Effect.append { (⟨2, "v2", DeploymentStatus.PREPARED, "d-2", "t1"⟩ :
            DeploymentState) with status := DeploymentStatus.PREPARED },
         Effect.send "a" "d-2" vote reason])
    ∧ ∀ i j a tgt tx v r,
        ((handlePrepareRequest (nodeInit "b" [] "v1" "t0") "a" "d-2"
            ⟨2, "v2", DeploymentStatus.PREPARED, "d-2", "t1"⟩).2).get? i
            = some (Effect.append a) →
        ((handlePrepareRequest (nodeInit "b" [] "v1" "t0") "a" "d-2"
            ⟨2, "v2", DeploymentStatus.PREPARED, "d-2", "t1"⟩).2).get? j
            = some (Effect.send tgt tx v r) →
        i < j :=
  prepare_append_before_send (nodeInit "b" [] "v1" "t0") "a" "d-2"
    ⟨2, "v2", DeploymentStatus.PREPARED, "d-2", "t1"⟩

/-- C7: a participant votes COMMIT iff its health metric satisfies
    p95 ≤ 200 and error_rate ≤ 5%; otherwise it votes ABORT with a (nonempty)
    reason string; in either case the PREPARE_RESP echoes the request's txid
    and is sent back to the message's sender. -/
theorem prepare_vote_iff_health (n : NodeState) (sender txid : String)
    (reqState : DeploymentState) :
    ∃ cand vote reason,
      (handlePrepareRequest n sender txid reqState).2 =
        [Effect.append cand, Effect.send sender txid vote reason]
      ∧ (vote = Vote.COMMIT ↔ (n.p95 ≤ 200 ∧ n.error_rate ≤ 5/100))
      ∧ (vote = Vote.ABORT → reason = "health check failed")
      ∧ reason ≠ "" := by
  refine ⟨{ reqState with status := DeploymentStatus.PREPARED },
    if passesHealthGate n then Vote.COMMIT else Vote.ABORT,
    if passesHealthGate n then "ready to deploy" else "health check failed",
    rfl, ?_, ?_, ?_⟩
  · by_cases hg : passesHealthGate n
    · simp only [hg, if_true]
      simp only [passesHealthGate, Bool.and_eq_true, decide_eq_true_eq] at hg
      simpa using hg
    · simp only [hg, if_false]
      simp only [passesHealthGate, Bool.and_eq_true, decide_eq_true_eq] at hg
      constructor
      · intro hc; cases hc
      · intro hp; exact absurd hp hg
  · by_cases hg : passesHealthGate n
    · simp [hg]
    · simp [hg]
  · by_cases hg : passesHealthGate n
    · simp [hg]
    · simp [hg]

/-- Witness for C7: a healthy freshly booted node (p95 = 120 ≤ 200,
    error rate 1% ≤ 5%) handling a concrete prepare request. -/
theorem prepare_vote_iff_health_witness :
    ∃ cand vote reason,
      (handlePrepareRequest (nodeInit "c" [] "v1" "t0") "a" "d-2"
          ⟨2, "v2", DeploymentStatus.PREPARED, "d-2", "t1"⟩).2 =
        [Effect.append cand, Effect.send "a" "d-2" vote reason]
      ∧ (vote = Vote.COMMIT ↔
          ((nodeInit "c" [] "v1" "t0").p95 ≤ 200 ∧
           (nodeInit "c" [] "v1" "t0").error_rate ≤ 5/100))
      ∧ (vote = Vote.ABORT → reason = "health check failed")
      ∧ reason ≠ "" :=
  prepare_vote_iff_health (nodeInit "c" [] "v1" "t0") "a" "d-2"
    ⟨2, "v2", DeploymentStatus.PREPARED, "d-2", "t1"⟩

/-- The spec's description of the state served after recovery (spec section 3
    "Lifecycle"): when the last log record is `PREPARED` it is treated as
    uncommitted and the most recent `COMMITTED` record (or the bootstrap
    state) is served; otherwise the last record (or the bootstrap state) is
    served. Written from the spec's words, for comparison with
    `nodeInit`/`servedState`. -/
def specRecoveredServedState (log : List DeploymentState)
    (initial_model now : String) : DeploymentState :=
  let bootstrap : DeploymentState :=
    ⟨1, initial_model, DeploymentStatus.COMMITTED, "initial", now⟩
  match log.getLast? with
  | none => bootstrap
  | some last =>
    if last.status = DeploymentStatus.PREPARED then
      match (log.filter
          (fun s => decide (s.status = DeploymentStatus.COMMITTED))).getLast? with
      | some c => c
      | none => bootstrap
    else last

/-- Counterexample to C3: recovering from a log whose last record is
    `PREPARED` makes the node serve that PREPARED record through GET /state,
    not the most recent COMMITTED record the spec promises. -/
theorem nodeInit_serves_prepared_counterexample :
    (servedState (nodeInit "a"
        [⟨1, "v1", DeploymentStatus.COMMITTED, "initial", "t0"⟩,
         ⟨2, "v2", DeploymentStatus.PREPARED, "d-2", "t1"⟩] "v1" "t0")).status
      = DeploymentStatus.PREPARED
    ∧ servedState (nodeInit "a"
        [⟨1, "v1", DeploymentStatus.COMMITTED, "initial", "t0"⟩,
         ⟨2, "v2", DeploymentStatus.PREPARED, "d-2", "t1"⟩] "v1" "t0")
      ≠ specRecoveredServedState
        [⟨1, "v1", DeploymentStatus.COMMITTED, "initial", "t0"⟩,
         ⟨2, "v2", DeploymentStatus.PREPARED, "d-2", "t1"⟩] "v1" "t0" := by
  constructor
  · decide
  · decide

/-- C3 as amended: on process start the node restores the last log record as
    current state and serves exactly that record through GET /state whatever
    its status (a PREPARED last record is served as-is); `last_committed` is
    that record when it is COMMITTED and `None` otherwise; an empty log
    boots the `version=1, txid="initial"` COMMITTED state. -/
theorem nodeInit_serves_last_record (nid m now : String)
    (log : List DeploymentState) :
    (∀ p, log.getLast? = some p →
      servedState (nodeInit nid log m now) = p
      ∧ (nodeInit nid log m now).last_committed
          = (if p.status = DeploymentStatus.COMMITTED then some p else none))
    ∧ (log.getLast? = none →
      servedState (nodeInit nid log m now)
        = ⟨1, m, DeploymentStatus.COMMITTED, "initial", now⟩
      ∧ (nodeInit nid log m now).last_committed
          = some ⟨1, m, DeploymentStatus.COMMITTED, "initial", now⟩) := by
  constructor
  · intro p hp
    constructor <;> simp [nodeInit, servedState, hp]
  · intro hp
    constructor <;> simp [nodeInit, servedState, hp]

/-- Witness for amended C3: recovery from a two-record log ending in a
    PREPARED record serves that record and leaves `last_committed = none`. -/
theorem nodeInit_serves_last_record_witness :
    servedState (nodeInit "a"
        [⟨1, "v1", DeploymentStatus.COMMITTED, "initial", "t0"⟩,
         ⟨2, "v2", DeploymentStatus.PREPARED, "d-2", "t1"⟩] "v1" "t0")
      = ⟨2, "v2", DeploymentStatus.PREPARED, "d-2", "t1"⟩
    ∧ (nodeInit "a"
        [⟨1, "v1", DeploymentStatus.COMMITTED, "initial", "t0"⟩,
         ⟨2, "v2", DeploymentStatus.PREPARED, "d-2", "t1"⟩] "v1" "t0").last_committed
      = (if (⟨2, "v2", DeploymentStatus.PREPARED, "d-2", "t1"⟩ :
            DeploymentState).status = DeploymentStatus.COMMITTED
         then some ⟨2, "v2", DeploymentStatus.PREPARED, "d-2", "t1"⟩ else none) :=
  (nodeInit_serves_last_record "a" "v1" "t0"
      [⟨1, "v1", DeploymentStatus.COMMITTED, "initial", "t0"⟩,
       ⟨2, "v2", DeploymentStatus.PREPARED, "d-2", "t1"⟩]).1
    ⟨2, "v2", DeploymentStatus.PREPARED, "d-2", "t1"⟩ (by decide)

/-- Status enum of the weighted routing-state schema variant
    (`state.RoutingStatus`). -/
inductive RoutingStatus where
  | PREPARED
  | COMMITTED
  | ABORTED
deriving DecidableEq, Repr

/-- The `.value` of a `RoutingStatus` member (it is a `str` Enum). -/
def RoutingStatus.value : RoutingStatus → String
  | RoutingStatus.PREPARED => "PREPARED"
  | RoutingStatus.COMMITTED => "COMMITTED"
  | RoutingStatus.ABORTED => "ABORTED"

/-- `RoutingStatus(raw)`: Python Enum lookup by value; `none` models the
    `ValueError` raised when no member has that value. -/
def RoutingStatus.fromValue (s : String) : Option RoutingStatus :=
  if s = "PREPARED" then some RoutingStatus.PREPARED
  else if s = "COMMITTED" then some RoutingStatus.COMMITTED
  else if s = "ABORTED" then some RoutingStatus.ABORTED
  else none

/-- `state.RoutingState` (state.py:17-25): the weighted routing-state record.
    Python floats in `weights` are modelled as rationals, the insertion-
    ordered weight dict as an association list. -/
structure RoutingState where
  version : Int
  stable_model_id : String
  canary_model_id : String
  weights : List (String × ℚ)
  status : RoutingStatus
  txid : String
  timestamp : String
deriving DecidableEq, Repr

/-- A JSON-decoded Python value as it appears in a state dict: an int, a
    string, or a string-keyed map of numbers. -/
inductive PyValue where
  | int (n : Int)
  | str (s : String)
  | map (m : List (String × ℚ))
deriving DecidableEq, Repr

/-- `raw[key]` / `raw.get(key)` on a dict: the first binding of `key`. -/
def dictGet (raw : List (String × PyValue)) (key : String) : Option PyValue :=
  (raw.find? (fun p => p.1 == key)).map (fun p => p.2)

/-- Python `int(value)`: identity on ints, parse on strings, `TypeError`
    (modelled as `none`) on dicts. -/
def pyInt : PyValue → Option Int
  | PyValue.int n => some n
  | PyValue.str s => s.toInt?
  | PyValue.map _ => none

/-- Python `str(value)` (total; a dict is rendered via its repr, which never
    matters on the codec paths proved here). -/
def pyStr : PyValue → String
  | PyValue.int n => toString n
  | PyValue.str s => s
  | PyValue.map m => toString (m.map (fun p => p.1))

/-- `RoutingState.to_dict` (state.py:27-36). -/
def RoutingState.to_dict (s : RoutingState) : List (String × PyValue) :=
  [("version", PyValue.int s.version),
   ("stable_model_id", PyValue.str s.stable_model_id),
   ("canary_model_id", PyValue.str s.canary_model_id),
   ("weights", PyValue.map s.weights),
   ("status", PyValue.str s.status.value),
   ("txid", PyValue.str s.txid),
   ("timestamp", PyValue.str s.timestamp)]

/-- `RoutingState.from_dict` (state.py:38-51): `none` models any exception
    raised by a missing key, a failed `int()` coercion, a non-dict `weights`
    value, or an unknown status value. `now` stands for the
    `datetime.utcnow().isoformat()` default taken when `timestamp` is
    absent. -/
def RoutingState.from_dict (now : String) (raw : List (String × PyValue)) :
    Option RoutingState := do
  let vv ← dictGet raw "version"
  let version ← pyInt vv
  let sm ← dictGet raw "stable_model_id"
  let cm ← dictGet raw "canary_model_id"
  let weights ←
    match dictGet raw "weights" with
    | some (PyValue.map m) => some (m.map (fun p => (p.1, p.2)))
    | some _ => none
    | none => some []
  let sv ← dictGet raw "status"
  let status ←
    match sv with
    | PyValue.str v => RoutingStatus.fromValue v
    | _ => none
  let tv ← dictGet raw "txid"
  some { version := version
         stable_model_id := pyStr sm
         canary_model_id := pyStr cm
         weights := weights
         status := status
         txid := pyStr tv
         timestamp := pyStr ((dictGet raw "timestamp").getD (PyValue.str now)) }

/-- C9: deserializing the serialization of a routing-state record yields an
    equal record, preserving version, model identifiers, weights, status,
    txid and timestamp. -/
theorem routingState_roundtrip (s : RoutingState) (now : String) :
    RoutingState.from_dict now s.to_dict = some s := by
  cases s with
  | mk version sm cm w st tx ts =>
    cases st <;>
      simp [RoutingState.from_dict, RoutingState.to_dict, dictGet, pyInt,
        pyStr, RoutingStatus.fromValue, RoutingStatus.value, List.find?]

/-- Python `line.strip()`: drop leading and trailing whitespace characters. -/
def pyStrip (s : String) : String :=
  String.mk
    (((s.data.dropWhile Char.isWhitespace).reverse.dropWhile
        Char.isWhitespace).reverse)

/-- The scan loop of `StateLog.last_state` (state.py:68-73): walk the lines
    from the top, remembering the stripped form of the most recent non-empty
    line. -/
def lastNonEmptyLine (lines : List String) : Option String :=
  lines.foldl
    (fun last_line line =>
      let stripped := pyStrip line
      if stripped = "" then last_line else some stripped)
    none

/-- The failure mode of `last_state` on a malformed last line (spec section
    4.1 names it `CorruptLog`; the code lets the `json.loads` /
    `from_dict` exception propagate). -/
inductive LogError where
  | CorruptLog
deriving DecidableEq, Repr

/-- `StateLog.last_state` (state.py:65-77): `none` file models a missing log
    file; `decode` stands for `json.loads` composed with
    `RoutingState.from_dict`, returning `none` on a malformed line. -/
def StateLog.last_state (decode : String → Option RoutingState)
    (file : Option (List String)) : Except LogError (Option RoutingState) :=
  match file with
  | none => Except.ok none
  | some lines =>
    match lastNonEmptyLine lines with
    | none => Except.ok none
    | some last_line =>
      match decode last_line with
      | some s => Except.ok (some s)
      | none => Except.error LogError.CorruptLog

/-- The scan keeps exactly the stripped form of the last line whose stripped
    form is non-empty. -/
theorem lastNonEmptyLine_eq_find (lines : List String) :
    lastNonEmptyLine lines
      = (lines.reverse.find? (fun l => decide (pyStrip l ≠ ""))).map pyStrip := by
  have key : ∀ (ls : List String) (acc : Option String),
      ls.foldl
        (fun last_line line =>
          let stripped := pyStrip line
          if stripped = "" then last_line else some stripped)
        acc
      = match ls.reverse.find? (fun l => decide (pyStrip l ≠ "")) with
        | some l => some (pyStrip l)
        | none => acc := by
    intro ls
    induction ls with
    | nil => intro acc; rfl
    | cons line rest ih =>
      intro acc
      rw [List.foldl_cons, ih]
      rw [List.reverse_cons, List.find?_append]
      rcases h : rest.reverse.find? (fun l => decide (pyStrip l ≠ "")) with _ | l
      · by_cases hline : pyStrip line = ""
        · simp [List.find?, hline]
        · simp [List.find?, hline]
      · simp
  unfold lastNonEmptyLine
  rw [key lines none]
  rcases h : lines.reverse.find? (fun l => decide (pyStrip l ≠ "")) with _ | l <;> simp

/-- C8: `last_state` returns nothing when the file is missing or has no
    non-empty line; otherwise it decodes the last non-empty line (the scan
    result equals the last line with non-empty stripped form); a malformed
    last line fails with `CorruptLog` instead of returning a state. -/
theorem last_state_spec (decode : String → Option RoutingState)
    (file : Option (List String)) :
    (∀ lines, lastNonEmptyLine lines
        = (lines.reverse.find? (fun l => decide (pyStrip l ≠ ""))).map pyStrip)
    ∧ (file = none → StateLog.last_state decode file = Except.ok none)
    ∧ (∀ lines, file = some lines → (∀ l ∈ lines, pyStrip l = "") →
        StateLog.last_state decode file = Except.ok none)
    ∧ (∀ lines l s, file = some lines → lastNonEmptyLine lines = some l →
        decode l = some s →
        StateLog.last_state decode file = Except.ok (some s))
    ∧ (∀ lines l, file = some lines → lastNonEmptyLine lines = some l →
        decode l = none →
        StateLog.last_state decode file = Except.error LogError.CorruptLog) := by
  refine ⟨lastNonEmptyLine_eq_find, ?_, ?_, ?_, ?_⟩
  · intro h; subst h; rfl
  · intro lines hf hall
    subst hf
    have hnone : lastNonEmptyLine lines = none := by
      rw [lastNonEmptyLine_eq_find]
      have : lines.reverse.find? (fun l => decide (pyStrip l ≠ "")) = none := by
        rw [List.find?_eq_none]
        intro x hx
        simp only [decide_eq_true_eq, ne_eq, not_not]
        exact hall x (List.mem_reverse.mp hx)
      rw [this]; rfl
    simp [StateLog.last_state, hnone]
  · intro lines l s hf hl hd
    subst hf
    simp [StateLog.last_state, hl, hd]
  · intro lines l hf hl hd
    subst hf
    simp [StateLog.last_state, hl, hd]

/-- Witness for C8: a file whose last non-empty line fails to decode yields
    `CorruptLog`. -/
theorem last_state_spec_witness :
    StateLog.last_state (fun _ => none) (some ["", "  ", "bad json"])
      = Except.error LogError.CorruptLog :=
  (last_state_spec (fun _ => none) (some ["", "  ", "bad json"])).2.2.2.2
    ["", "  ", "bad json"] "bad json" rfl (by decide) rfl

/-- A protocol event delivered to a node's message loop that touches
    protocol state: a PREPARE_REQ or a DECISION (`process_messages`,
    node.py:63-78; HEARTBEAT only prints). The string of a `decide` event is
    the wall clock used for the record the handler may construct. -/
inductive PEvent where
  | prepare (sender txid : String) (s : DeploymentState)
  | decide (s : DeploymentState) (k : DecisionKind) (now : String)
deriving DecidableEq, Repr

/-- Dispatch of one inbound event to its handler. -/
def stepNode (n : NodeState) : PEvent → NodeState
  | PEvent.prepare sender txid s => (handlePrepareRequest n sender txid s).1
  | PEvent.decide s k now => applyDecision n s k now

/-- A node's message loop over a finite event list. -/
def runNode (n : NodeState) (evs : List PEvent) : NodeState :=
  evs.foldl stepNode n

/-- The DECISION deliveries among a list of events, in order. -/
def decidesOf : List PEvent → List (DeploymentState × DecisionKind)
  | [] => []
  | PEvent.prepare _ _ _ :: rest => decidesOf rest
  | PEvent.decide s k _ :: rest => (s, k) :: decidesOf rest

/-- The inputs the environment feeds one 2PC attempt of the coordinator:
    the votes recorded in the tally when collection ends, the time seed of
    the txid, and the wall clock for the records created. -/
structure AttemptIn where
  votes : List Vote
  seed : String
  now : String
deriving DecidableEq, Repr

/-- One `deploy_version` call: the target model id and the per-attempt
    inputs (the list length plays `max_retries`). -/
structure DeployCall where
  model : String
  attempts : List AttemptIn
deriving DecidableEq, Repr

/-- The txid built at each attempt (`deploy_version`, node.py:180). -/
def mkTxid (node_id : String) (version : Nat) (seed : String) : String :=
  "deploy-" ++ node_id ++ "-" ++ toString version ++ "-" ++ seed

/-- The retry loop of `deploy_version` (node.py:172-233): `next_version` is
    fixed at the first attempt and reused on retries; each attempt appends
    the PREPARED candidate, collects votes, broadcasts the decision
    (accumulated in the returned stream) and applies it locally
    (`_broadcast_decision`); the loop stops at the first COMMIT. -/
def deployAttempts (expected : Nat) (model : String) (nextVersion : Nat) :
    NodeState → List AttemptIn → NodeState × List (DeploymentState × DecisionKind)
  | n, [] => (n, [])
  | n, a :: rest =>
    let txid := mkTxid n.node_id nextVersion a.seed
    let candidate : DeploymentState :=
      ⟨nextVersion, model, DeploymentStatus.PREPARED, txid, a.now⟩
    let n1 : NodeState := { n with log := n.log ++ [candidate] }
    let decision := collectVotes a.votes expected
    let n2 := applyDecision n1 candidate decision a.now
    match decision with
    | DecisionKind.COMMIT => (n2, [(candidate, DecisionKind.COMMIT)])
    | DecisionKind.ABORT =>
      let res := deployAttempts expected model nextVersion n2 rest
      (res.1, (candidate, DecisionKind.ABORT) :: res.2)

/-- `deploy_version`: `next_version = self.state.version + 1` computed at
    attempt 1. -/
def deployVersion (expected : Nat) (n : NodeState) (call : DeployCall) :
    NodeState × List (DeploymentState × DecisionKind) :=
  deployAttempts expected call.model (n.state.version + 1) n call.attempts

/-- A sequence of coordinator deployments, returning the coordinator's final
    node state and the ordered stream of DECISION messages it broadcast. -/
def coordRun (expected : Nat) :
    NodeState → List DeployCall → NodeState × List (DeploymentState × DecisionKind)
  | n, [] => (n, [])
  | n, c :: cs =>
    let r1 := deployVersion expected n c
    let r2 := coordRun expected r1.1 cs
    (r2.1, r1.2 ++ r2.2)

/-- Versions of the COMMITTED records of a log, in append order. -/
def commitVersions (log : List DeploymentState) : List Nat :=
  (log.filter (fun s => decide (s.status = DeploymentStatus.COMMITTED))).map
    (fun s => s.version)

/-- Versions of the COMMIT decisions of a broadcast stream, in order. -/
def streamCommitVersions
    (stream : List (DeploymentState × DecisionKind)) : List Nat :=
  (stream.filter (fun p => decide (p.2 = DecisionKind.COMMIT))).map
    (fun p => p.1.version)

/-- Version of the node's last committed state (0 when there is none). -/
def lcVersion (n : NodeState) : Nat :=
  (n.last_committed.map (fun s => s.version)).getD 0

theorem commitVersions_append (l₁ l₂ : List DeploymentState) :
    commitVersions (l₁ ++ l₂) = commitVersions l₁ ++ commitVersions l₂ := by
  simp [commitVersions, List.filter_append]

theorem streamCommitVersions_append
    (l₁ l₂ : List (DeploymentState × DecisionKind)) :
    streamCommitVersions (l₁ ++ l₂)
      = streamCommitVersions l₁ ++ streamCommitVersions l₂ := by
  simp [streamCommitVersions, List.filter_append]

theorem applyDecision_abort_lc (n : NodeState) (s : DeploymentState)
    (now : String) :
    (applyDecision n s DecisionKind.ABORT now).last_committed
      = n.last_committed := by
  rcases h : n.last_committed with _ | lc <;> simp [applyDecision, h]

theorem applyDecision_abort_commitVersions (n : NodeState)
    (s : DeploymentState) (now : String) :
    commitVersions (applyDecision n s DecisionKind.ABORT now).log
      = commitVersions n.log := by
  rcases h : n.last_committed with _ | lc <;>
    simp [applyDecision, h, commitVersions, List.filter_append]

theorem applyDecision_abort_state (n : NodeState) (s lc : DeploymentState)
    (now : String) (h : n.last_committed = some lc) :
    (applyDecision n s DecisionKind.ABORT now).state = lc := by
  simp [applyDecision, h]

/-- Invariant tying a node's state to the DECISION stream it may still
    consume: the committed versions in its log are strictly increasing and
    bounded by the last committed version, and every COMMIT still in the
    stream is strictly newer than the last committed version, the stream's
    commit versions themselves being strictly increasing. -/
def NodeStreamInv (n : NodeState) (evs : List PEvent) : Prop :=
  (commitVersions n.log).Pairwise (· < ·)
  ∧ (∀ x ∈ commitVersions n.log, x ≤ lcVersion n)
  ∧ (streamCommitVersions (decidesOf evs)).Pairwise (· < ·)
  ∧ (∀ x ∈ streamCommitVersions (decidesOf evs), lcVersion n < x)

theorem stepNode_preserve (n : NodeState) (e : PEvent) (rest : List PEvent)
    (h : NodeStreamInv n (e :: rest)) :
    NodeStreamInv (stepNode n e) rest
    ∧ lcVersion n ≤ lcVersion (stepNode n e) := by
  obtain ⟨hlog, hbound, hstream, hfresh⟩ := h
  cases e with
  | prepare sender txid s =>
    have hcv : commitVersions (stepNode n (PEvent.prepare sender txid s)).log
        = commitVersions n.log := by
      simp [stepNode, handlePrepareRequest, commitVersions_append,
        commitVersions]
    have hlc : lcVersion (stepNode n (PEvent.prepare sender txid s))
        = lcVersion n := rfl
    have hdec : decidesOf (PEvent.prepare sender txid s :: rest)
        = decidesOf rest := rfl
    rw [hdec] at hstream hfresh
    exact ⟨⟨hcv ▸ hlog, hcv ▸ hlc ▸ hbound, hstream, hlc ▸ hfresh⟩, hlc.ge⟩
  | decide s k now =>
    cases k with
    | COMMIT =>
      have hscv : streamCommitVersions
            (decidesOf (PEvent.decide s DecisionKind.COMMIT now :: rest))
          = s.version :: streamCommitVersions (decidesOf rest) := by
        simp [decidesOf, streamCommitVersions]
      rw [hscv] at hstream hfresh
      have hlt : lcVersion n < s.version := hfresh s.version (by simp)
      obtain ⟨htail, hpwtail⟩ := List.pairwise_cons.mp hstream
      have hcv : commitVersions
            (stepNode n (PEvent.decide s DecisionKind.COMMIT now)).log
          = commitVersions n.log ++ [s.version] := by
        simp [stepNode, applyDecision, commitVersions_append, commitVersions]
      have hlc : lcVersion (stepNode n (PEvent.decide s DecisionKind.COMMIT now))
          = s.version := by
        simp [stepNode, applyDecision, lcVersion]
      refine ⟨⟨?_, ?_, hpwtail, ?_⟩, ?_⟩
      · rw [hcv]
        rw [List.pairwise_append]
        refine ⟨hlog, List.pairwise_singleton _ _, ?_⟩
        intro a ha b hb
        rw [List.mem_singleton] at hb
        subst hb
        exact lt_of_le_of_lt (hbound a ha) hlt
      · rw [hcv, hlc]
        intro x hx
        rcases List.mem_append.mp hx with hx | hx
        · exact le_of_lt (lt_of_le_of_lt (hbound x hx) hlt)
        · rw [List.mem_singleton] at hx; omega
      · rw [hlc]
        intro x hx
        exact htail x hx
      · rw [hlc]; exact le_of_lt hlt
    | ABORT =>
      have hscv : streamCommitVersions
            (decidesOf (PEvent.decide s DecisionKind.ABORT now :: rest))
          = streamCommitVersions (decidesOf rest) := by
        simp [decidesOf, streamCommitVersions]
      rw [hscv] at hstream hfresh
      have hcv : commitVersions
            (stepNode n (PEvent.decide s DecisionKind.ABORT now)).log
          = commitVersions n.log := by
        simp only [stepNode]
        exact applyDecision_abort_commitVersions n s now
      have hlc : lcVersion (stepNode n (PEvent.decide s DecisionKind.ABORT now))
          = lcVersion n := by
        simp only [stepNode, lcVersion, applyDecision_abort_lc]
      exact ⟨⟨hcv ▸ hlog, hcv ▸ hlc ▸ hbound, hstream, hlc ▸ hfresh⟩, hlc.ge⟩

theorem runNode_preserve :
    ∀ (evs : List PEvent) (n : NodeState), NodeStreamInv n evs →
      NodeStreamInv (runNode n evs) []
      ∧ lcVersion n ≤ lcVersion (runNode n evs) := by
  intro evs
  induction evs with
  | nil => intro n h; exact ⟨h, le_refl _⟩
  | cons e rest ih =>
    intro n h
    obtain ⟨h1, hle1⟩ := stepNode_preserve n e rest h
    obtain ⟨h2, hle2⟩ := ih (stepNode n e) h1
    exact ⟨h2, le_trans hle1 hle2⟩

theorem runNode_inv_mid :
    ∀ (evs₁ : List PEvent) (evs₂ : List PEvent) (n : NodeState),
      NodeStreamInv n (evs₁ ++ evs₂) →
      NodeStreamInv (runNode n evs₁) evs₂ := by
  intro evs₁
  induction evs₁ with
  | nil => intro evs₂ n h; exact h
  | cons e rest ih =>
    intro evs₂ n h
    obtain ⟨h1, _⟩ := stepNode_preserve n e (rest ++ evs₂) h
    exact ih evs₂ (stepNode n e) h1

theorem runNode_append (n : NodeState) (l₁ l₂ : List PEvent) :
    runNode n (l₁ ++ l₂) = runNode (runNode n l₁) l₂ :=
  List.foldl_append _ _ _ _


/-- Coordinator invariant: the current state is the last committed one and
    the committed versions in the log are strictly increasing, bounded by
    the current version. -/
def CoordInv (n : NodeState) : Prop :=
  n.last_committed = some n.state
  ∧ (commitVersions n.log).Pairwise (· < ·)
  ∧ (∀ x ∈ commitVersions n.log, x ≤ n.state.version)

theorem deployAttempts_spec (expected : Nat) (model : String) (w : Nat) :
    ∀ (attempts : List AttemptIn) (n : NodeState),
      CoordInv n → n.state.version < w →
      CoordInv (deployAttempts expected model w n attempts).1
      ∧ ((deployAttempts expected model w n attempts).1.state.version
            = n.state.version
          ∧ streamCommitVersions (deployAttempts expected model w n attempts).2
            = []
        ∨ (deployAttempts expected model w n attempts).1.state.version = w
          ∧ streamCommitVersions (deployAttempts expected model w n attempts).2
            = [w])
      ∧ commitVersions (deployAttempts expected model w n attempts).1.log
          = commitVersions n.log
            ++ streamCommitVersions (deployAttempts expected model w n attempts).2 := by
  intro attempts
  induction attempts with
  | nil =>
    intro n hC hw
    exact ⟨hC, Or.inl ⟨rfl, rfl⟩, by simp [deployAttempts, streamCommitVersions]⟩
  | cons a rest ih =>
    intro n hC hw
    obtain ⟨hself, hlog, hbound⟩ := hC
    rcases hdec : collectVotes a.votes expected with _ | _
    · -- decision COMMIT: single-element stream, the version becomes w
      have h1 : (deployAttempts expected model w n (a :: rest)).1
          = applyDecision
              { n with log := n.log ++
                  [⟨w, model, DeploymentStatus.PREPARED,
                    mkTxid n.node_id w a.seed, a.now⟩] }
              ⟨w, model, DeploymentStatus.PREPARED,
                mkTxid n.node_id w a.seed, a.now⟩
              DecisionKind.COMMIT a.now := by
        simp [deployAttempts, hdec]
      have h2 : (deployAttempts expected model w n (a :: rest)).2
          = [(⟨w, model, DeploymentStatus.PREPARED,
                mkTxid n.node_id w a.seed, a.now⟩, DecisionKind.COMMIT)] := by
        simp [deployAttempts, hdec]
      have hcva : commitVersions (applyDecision
          { n with log := n.log ++
              [⟨w, model, DeploymentStatus.PREPARED,
                mkTxid n.node_id w a.seed, a.now⟩] }
          ⟨w, model, DeploymentStatus.PREPARED,
            mkTxid n.node_id w a.seed, a.now⟩
          DecisionKind.COMMIT a.now).log = commitVersions n.log ++ [w] := by
        simp [applyDecision, commitVersions_append, commitVersions]
      have hsv : (applyDecision
          { n with log := n.log ++
              [⟨w, model, DeploymentStatus.PREPARED,
                mkTxid n.node_id w a.seed, a.now⟩] }
          ⟨w, model, DeploymentStatus.PREPARED,
            mkTxid n.node_id w a.seed, a.now⟩
          DecisionKind.COMMIT a.now).state.version = w := rfl
      refine ⟨⟨?_, ?_, ?_⟩, Or.inr ⟨?_, ?_⟩, ?_⟩
      · rw [h1]; rfl
      · rw [h1, hcva, List.pairwise_append]
        refine ⟨hlog, List.pairwise_singleton _ _, ?_⟩
        intro x hx b hb
        rw [List.mem_singleton] at hb
        subst hb
        exact lt_of_le_of_lt (hbound x hx) hw
      · rw [h1, hcva, hsv]
        intro x hx
        rcases List.mem_append.mp hx with hx | hx
        · exact le_of_lt (lt_of_le_of_lt (hbound x hx) hw)
        · rw [List.mem_singleton] at hx; omega
      · rw [h1, hsv]
      · rw [h2]; simp [streamCommitVersions]
      · rw [h1, h2, hcva]; simp [streamCommitVersions]
    · -- decision ABORT: the decision leaves the committed state alone; recurse
      have h1 : (deployAttempts expected model w n (a :: rest)).1
          = (deployAttempts expected model w
              (applyDecision
                { n with log := n.log ++
                    [⟨w, model, DeploymentStatus.PREPARED,
                      mkTxid n.node_id w a.seed, a.now⟩] }
                ⟨w, model, DeploymentStatus.PREPARED,
                  mkTxid n.node_id w a.seed, a.now⟩
                DecisionKind.ABORT a.now) rest).1 := by
        simp [deployAttempts, hdec]
      have h2 : (deployAttempts expected model w n (a :: rest)).2
          = (⟨w, model, DeploymentStatus.PREPARED,
                mkTxid n.node_id w a.seed, a.now⟩, DecisionKind.ABORT)
            :: (deployAttempts expected model w
              (applyDecision
                { n with log := n.log ++
                    [⟨w, model, DeploymentStatus.PREPARED,
                      mkTxid n.node_id w a.seed, a.now⟩] }
                ⟨w, model, DeploymentStatus.PREPARED,
                  mkTxid n.node_id w a.seed, a.now⟩
                DecisionKind.ABORT a.now) rest).2 := by
        simp [deployAttempts, hdec]
      have hlc1 : ({ n with log := n.log ++
          [⟨w, model, DeploymentStatus.PREPARED,
            mkTxid n.node_id w a.seed, a.now⟩] } : NodeState).last_committed
          = some n.state := hself
      have hstate2 : (applyDecision
          { n with log := n.log ++
              [⟨w, model, DeploymentStatus.PREPARED,
                mkTxid n.node_id w a.seed, a.now⟩] }
          ⟨w, model, DeploymentStatus.PREPARED,
            mkTxid n.node_id w a.seed, a.now⟩
          DecisionKind.ABORT a.now).state = n.state :=
        applyDecision_abort_state _ _ _ _ hlc1
      have hlc2 : (applyDecision
          { n with log := n.log ++
              [⟨w, model, DeploymentStatus.PREPARED,
                mkTxid n.node_id w a.seed, a.now⟩] }
          ⟨w, model, DeploymentStatus.PREPARED,
            mkTxid n.node_id w a.seed, a.now⟩
          DecisionKind.ABORT a.now).last_committed = some n.state :=
        (applyDecision_abort_lc _ _ _).trans hlc1
      have hcv2 : commitVersions (applyDecision
          { n with log := n.log ++
              [⟨w, model, DeploymentStatus.PREPARED,
                mkTxid n.node_id w a.seed, a.now⟩] }
          ⟨w, model, DeploymentStatus.PREPARED,
            mkTxid n.node_id w a.seed, a.now⟩
          DecisionKind.ABORT a.now).log = commitVersions n.log := by
        rw [applyDecision_abort_commitVersions]
        simp [commitVersions_append, commitVersions]
      have hC2 : CoordInv (applyDecision
          { n with log := n.log ++
              [⟨w, model, DeploymentStatus.PREPARED,
                mkTxid n.node_id w a.seed, a.now⟩] }
          ⟨w, model, DeploymentStatus.PREPARED,
            mkTxid n.node_id w a.seed, a.now⟩
          DecisionKind.ABORT a.now) := by
        refine ⟨?_, ?_, ?_⟩
        · rw [hlc2, hstate2]
        · rw [hcv2]; exact hlog
        · rw [hcv2, hstate2]; exact hbound
      have hw2 : (applyDecision
          { n with log := n.log ++
              [⟨w, model, DeploymentStatus.PREPARED,
                mkTxid n.node_id w a.seed, a.now⟩] }
          ⟨w, model, DeploymentStatus.PREPARED,
            mkTxid n.node_id w a.seed, a.now⟩
          DecisionKind.ABORT a.now).state.version < w := by
        rw [hstate2]; exact hw
      obtain ⟨ih1, ih2, ih3⟩ := ih _ hC2 hw2
      have hscons : ∀ (ds : List (DeploymentState × DecisionKind))
          (c : DeploymentState),
          streamCommitVersions ((c, DecisionKind.ABORT) :: ds)
            = streamCommitVersions ds := by
        intro ds c; simp [streamCommitVersions]
      refine ⟨?_, ?_, ?_⟩
      · rw [h1]; exact ih1
      · rw [h1, h2, hscons]
        rcases ih2 with ⟨hv, hs⟩ | ⟨hv, hs⟩
        · exact Or.inl ⟨by rw [hv, hstate2], hs⟩
        · exact Or.inr ⟨hv, hs⟩
      · rw [h1, h2, hscons]
        rcases ih2 with ⟨hv, hs⟩ | ⟨hv, hs⟩ <;> rw [ih3, hcv2]

theorem coordRun_spec (expected : Nat) :
    ∀ (calls : List DeployCall) (n : NodeState), CoordInv n →
      CoordInv (coordRun expected n calls).1
      ∧ n.state.version ≤ (coordRun expected n calls).1.state.version
      ∧ (streamCommitVersions (coordRun expected n calls).2).Pairwise (· < ·)
      ∧ (∀ x ∈ streamCommitVersions (coordRun expected n calls).2,
          n.state.version < x
          ∧ x ≤ (coordRun expected n calls).1.state.version)
      ∧ commitVersions (coordRun expected n calls).1.log
          = commitVersions n.log
            ++ streamCommitVersions (coordRun expected n calls).2 := by
  intro calls
  induction calls with
  | nil =>
    intro n hC
    refine ⟨hC, le_refl _, List.Pairwise.nil, ?_, ?_⟩
    · intro x hx
      simp [coordRun, streamCommitVersions] at hx
    · simp [coordRun, streamCommitVersions]
  | cons c cs ih =>
    intro n hC
    obtain ⟨hda1, hda2, hda3⟩ :=
      deployAttempts_spec expected c.model (n.state.version + 1) c.attempts n
        hC (Nat.lt_succ_self _)
    obtain ⟨ihC, ihmono, ihpw, ihmem, ihlog⟩ :=
      ih (deployAttempts expected c.model (n.state.version + 1) n c.attempts).1
        hda1
    have h1 : (coordRun expected n (c :: cs)).1
        = (coordRun expected
            (deployAttempts expected c.model (n.state.version + 1) n
              c.attempts).1 cs).1 := rfl
    have h2 : (coordRun expected n (c :: cs)).2
        = (deployAttempts expected c.model (n.state.version + 1) n c.attempts).2
          ++ (coordRun expected
            (deployAttempts expected c.model (n.state.version + 1) n
              c.attempts).1 cs).2 := rfl
    rw [h1, h2, streamCommitVersions_append]
    rcases hda2 with ⟨hv1, hs1⟩ | ⟨hv1, hs1⟩
    · -- no commit in this deployment
      rw [hs1, List.nil_append]
      refine ⟨ihC, ?_, ihpw, ?_, ?_⟩
      · omega
      · intro x hx
        obtain ⟨ha, hb⟩ := ihmem x hx
        exact ⟨by omega, hb⟩
      · rw [ihlog, hda3, hs1, List.append_nil]
    · -- this deployment committed version n.state.version + 1
      rw [hs1]
      have hwle : n.state.version + 1
          ≤ (coordRun expected
              (deployAttempts expected c.model (n.state.version + 1) n
                c.attempts).1 cs).1.state.version := by
        omega
      refine ⟨ihC, ?_, ?_, ?_, ?_⟩
      · omega
      · rw [List.singleton_append, List.pairwise_cons]
        refine ⟨?_, ihpw⟩
        intro y hy
        have := (ihmem y hy).1
        omega
      · intro x hx
        rcases List.mem_append.mp hx with hx | hx
        · rw [List.mem_singleton] at hx
          subst hx
          exact ⟨Nat.lt_succ_self _, hwle⟩
        · obtain ⟨ha, hb⟩ := ihmem x hx
          exact ⟨by omega, hb⟩
      · rw [ihlog, hda3, hs1, List.append_assoc]

/-- C1: in every run in which the coordinator boots from an empty log and
    the DECISION deliveries a node consumes form a sublist (reliable,
    order-preserving, possibly lossy delivery) of the coordinator's
    broadcast stream, the sequence of COMMITTED records appended to the
    coordinator's log and to the node's log has strictly increasing version,
    and the node's last committed version never decreases along the run
    (each COMMIT installs a strictly greater version). -/
theorem committed_versions_strictly_increase
    (cid cm pid pm t0 t1 : String) (expected : Nat)
    (calls : List DeployCall) (evs : List PEvent)
    (hsub : List.Sublist (decidesOf evs)
      (coordRun expected (nodeInit cid [] cm t0) calls).2) :
    (commitVersions
        (coordRun expected (nodeInit cid [] cm t0) calls).1.log).Pairwise (· < ·)
    ∧ (commitVersions
        (runNode (nodeInit pid [] pm t1) evs).log).Pairwise (· < ·)
    ∧ ∀ evs₁ evs₂, evs = evs₁ ++ evs₂ →
        lcVersion (runNode (nodeInit pid [] pm t1) evs₁)
          ≤ lcVersion (runNode (nodeInit pid [] pm t1) evs) := by
  have hb1 : commitVersions (nodeInit cid [] cm t0).log = [1] := by
    simp [nodeInit, commitVersions]
  have hv0 : (nodeInit cid [] cm t0).state.version = 1 := rfl
  have hCb : CoordInv (nodeInit cid [] cm t0) := by
    refine ⟨rfl, ?_, ?_⟩
    · rw [hb1]; exact List.pairwise_singleton _ _
    · rw [hb1]
      intro x hx
      rw [List.mem_singleton] at hx
      omega
  obtain ⟨hCfin, hmono, hpwS, hmemS, hlogC⟩ :=
    coordRun_spec expected calls (nodeInit cid [] cm t0) hCb
  have hp1 : commitVersions (nodeInit pid [] pm t1).log = [1] := by
    simp [nodeInit, commitVersions]
  have hplc : lcVersion (nodeInit pid [] pm t1) = 1 := rfl
  have hsubS : List.Sublist (streamCommitVersions (decidesOf evs))
      (streamCommitVersions (coordRun expected (nodeInit cid [] cm t0) calls).2) := by
    simp only [streamCommitVersions]
    exact (hsub.filter _).map _
  have hInv : NodeStreamInv (nodeInit pid [] pm t1) evs := by
    refine ⟨?_, ?_, ?_, ?_⟩
    · rw [hp1]; exact List.pairwise_singleton _ _
    · rw [hp1, hplc]
      intro x hx
      rw [List.mem_singleton] at hx
      omega
    · exact hpwS.sublist hsubS
    · intro x hx
      have hxs := hsubS.subset hx
      have := (hmemS x hxs).1
      rw [hplc]
      omega
  refine ⟨?_, ?_, ?_⟩
  · rw [hlogC, hb1]
    rw [List.pairwise_append]
    refine ⟨List.pairwise_singleton _ _, hpwS, ?_⟩
    intro a ha b hb
    rw [List.mem_singleton] at ha
    subst ha
    have := (hmemS b hb).1
    omega
  · exact (runNode_preserve evs _ hInv).1.1
  · intro evs₁ evs₂ heq
    subst heq
    have hmid := runNode_inv_mid evs₁ evs₂ _ hInv
    have hle₂ := (runNode_preserve evs₂ (runNode (nodeInit pid [] pm t1) evs₁) hmid).2
    rw [runNode_append]
    exact hle₂

/-- Witness for C1: one deployment of "v2" with a single expected COMMIT
    vote; the participant consumes exactly the broadcast COMMIT decision. -/
theorem committed_versions_strictly_increase_witness :
    (commitVersions
        (coordRun 1 (nodeInit "a" [] "v1" "t0")
          [⟨"v2", [⟨[Vote.COMMIT], "7", "t2"⟩]⟩]).1.log).Pairwise (· < ·)
    ∧ (commitVersions
        (runNode (nodeInit "b" [] "v1" "t0")
          [PEvent.decide ⟨2, "v2", DeploymentStatus.PREPARED, "deploy-a-2-7", "t2"⟩
            DecisionKind.COMMIT "t3"]).log).Pairwise (· < ·)
    ∧ ∀ evs₁ evs₂,
        [PEvent.decide ⟨2, "v2", DeploymentStatus.PREPARED, "deploy-a-2-7", "t2"⟩
          DecisionKind.COMMIT "t3"] = evs₁ ++ evs₂ →
        lcVersion (runNode (nodeInit "b" [] "v1" "t0") evs₁)
          ≤ lcVersion (runNode (nodeInit "b" [] "v1" "t0")
              [PEvent.decide ⟨2, "v2", DeploymentStatus.PREPARED, "deploy-a-2-7", "t2"⟩
                DecisionKind.COMMIT "t3"]) :=
  committed_versions_strictly_increase "a" "v1" "b" "v1" "t0" "t0" 1
    [⟨"v2", [⟨[Vote.COMMIT], "7", "t2"⟩]⟩]
    [PEvent.decide ⟨2, "v2", DeploymentStatus.PREPARED, "deploy-a-2-7", "t2"⟩
      DecisionKind.COMMIT "t3"]
    (by decide)
